import Mathlib

/-!
Verification of the BuffFi standalone trading agent (src/standalone-agent.js)
against its natural-language specification.

The JavaScript source is shallowly embedded: JS numbers that only ever hold
exact decimal/integer quantities are modelled as `ℚ` (with `NaN` represented
explicitly where a predicate can produce it), JS `BigInt` values as `ℤ`/`ℕ`,
JS objects used as keyed maps as association lists, and fallible operations
as `Option`/`Except` or explicit result constructors.
-/

set_option maxRecDepth 100000

namespace BuffFi

/-! ## JS number and value model for policy predicate return values

`evaluateEntries` / `evaluateExits` (standalone-agent.js lines 665-672 and
700-707) compute
`result === true ? 100 : (typeof result === "number" ? Math.min(Math.max(result, 0), 100) : 0)`
and dispatch `executeBuy` / `executeSell` exactly when that value is `> 0`.
`JsNum` models a JS number (possibly `NaN`); `JsVal` models a predicate's
return value: a boolean, a number, or anything else (`typeof ≠ "number"`). -/

inductive JsNum where
  | nan : JsNum
  | val : ℚ → JsNum
deriving DecidableEq

inductive JsVal where
  | bool : Bool → JsVal
  | num : JsNum → JsVal
  | other : JsVal
deriving DecidableEq

/-- `Math.max(a, b)`: NaN-propagating maximum. -/
def jsMax : JsNum → JsNum → JsNum
  | .nan, _ => .nan
  | _, .nan => .nan
  | .val x, .val y => .val (max x y)

/-- `Math.min(a, b)`: NaN-propagating minimum. -/
def jsMin : JsNum → JsNum → JsNum
  | .nan, _ => .nan
  | _, .nan => .nan
  | .val x, .val y => .val (min x y)

/-- `a > 0` on a JS number (`NaN > 0` is `false`). -/
def jsGtZero : JsNum → Bool
  | .nan => false
  | .val x => decide (0 < x)

/-- `Math.min(Math.max(x, 0), 100)`: the clamp applied to a numeric return value. -/
def clampNum (x : JsNum) : JsNum := jsMin (jsMax x (.val 0)) (.val 100)

/-- `result === true ? 100 : (typeof result === "number" ? Math.min(Math.max(result, 0), 100) : 0)`
(standalone-agent.js lines 667 and 702). -/
def actionValue : JsVal → JsNum
  | .bool true => .val 100
  | .num x => clampNum x
  | .bool false => .val 0
  | .other => .val 0

/-- `if (actionValue > 0)` — the guard under which `executeBuy` (line 671) or
`executeSell` (line 706) is dispatched. -/
def dispatchesAction (result : JsVal) : Bool := jsGtZero (actionValue result)

/-- The action percentage a predicate return value effectively produces: the
percentage passed to `executeBuy`/`executeSell` when the guard fires, and `0`
(no buy or sell dispatched) otherwise. -/
def effectiveAction (result : JsVal) : ℚ :=
  match actionValue result with
  | .nan => 0
  | .val x => if 0 < x then x else 0

lemma actionValue_num (x : JsNum) : actionValue (.num x) = clampNum x := rfl

lemma clampNum_val (q : ℚ) : clampNum (.val q) = .val (min (max q 0) 100) := rfl

/-- C1: a predicate's return value is mapped to an action percentage with
`false`/`0 ↦ 0`, `true`/`100 ↦ 100`, numbers clamped to `[0, 100]`; the sample
return values `false, 0, 50, 100, true, 150, -10, NaN` map to actions
`0, 0, 50, 100, 100, 100, 0, 0`; and an action of `0` dispatches no buy or
sell. -/
theorem predicate_action_mapping :
    effectiveAction (.bool false) = 0 ∧
    effectiveAction (.num (.val 0)) = 0 ∧
    effectiveAction (.num (.val 50)) = 50 ∧
    effectiveAction (.num (.val 100)) = 100 ∧
    effectiveAction (.bool true) = 100 ∧
    effectiveAction (.num (.val 150)) = 100 ∧
    effectiveAction (.num (.val (-10))) = 0 ∧
    effectiveAction (.num .nan) = 0 ∧
    (∀ q : ℚ, effectiveAction (.num (.val q)) = min (max q 0) 100) ∧
    (∀ result : JsVal, effectiveAction result = 0 → dispatchesAction result = false) := by
  have hq : ∀ q : ℚ, effectiveAction (.num (.val q)) = min (max q 0) 100 := by
    intro q
    have hnonneg : 0 ≤ min (max q 0) 100 :=
      le_min (le_max_right q 0) (by norm_num)
    simp only [effectiveAction, actionValue_num, clampNum_val]
    split
    · rfl
    · next h => exact le_antisymm hnonneg (not_lt.mp h)
  refine ⟨?_, ?_, ?_, ?_, rfl, ?_, ?_, rfl, hq, ?_⟩
  · rfl
  · rw [hq]; norm_num
  · rw [hq]; norm_num
  · rw [hq]; norm_num
  · rw [hq]; norm_num
  · rw [hq]; norm_num
  · intro result h
    cases result with
    | bool b =>
      cases b with
      | false => rfl
      | true => simp [effectiveAction, actionValue] at h
    | other => rfl
    | num x =>
      cases x with
      | nan => rfl
      | val q =>
        simp only [dispatchesAction, actionValue_num, clampNum_val, jsGtZero,
          decide_eq_false_iff_not]
        intro hpos
        rw [hq q] at h
        exact absurd h (ne_of_gt hpos)

/-- C10: a numeric return value strictly between 0 and 1 (e.g. `0.5`) is a
partial action at that fractional percentage — a buy or sell is dispatched —
and the no-action outcome occurs exactly when the return value is `false`, a
non-number other than `true`, or a number whose clamped value is not greater
than 0 (which includes `NaN`). -/
theorem fractional_action_dispatch :
    (∀ q : ℚ, 0 < q → q < 1 →
        dispatchesAction (.num (.val q)) = true ∧ effectiveAction (.num (.val q)) = q) ∧
    (∀ result : JsVal, dispatchesAction result = false ↔
        (result = .bool false ∨ result = .other ∨
         (∃ x, result = .num x ∧ jsGtZero (clampNum x) = false))) := by
  constructor
  · intro q hq0 hq1
    have hclamp : min (max q 0) 100 = q := by
      rw [max_eq_left hq0.le, min_eq_left (by linarith)]
    constructor
    · simp only [dispatchesAction, actionValue_num, clampNum_val, hclamp, jsGtZero,
        decide_eq_true_eq]
      exact hq0
    · simp only [effectiveAction, actionValue_num, clampNum_val, hclamp, if_pos hq0]
  · intro result
    cases result with
    | bool b =>
      cases b with
      | false =>
        simp only [dispatchesAction, actionValue, jsGtZero]
        norm_num
      | true =>
        have hd : dispatchesAction (.bool true) = true := by
          norm_num [dispatchesAction, actionValue, jsGtZero]
        rw [hd]
        constructor
        · intro h; exact nomatch h
        · rintro (h | h | ⟨y, hy, _⟩)
          · exact nomatch h
          · exact nomatch h
          · exact nomatch hy
    | other =>
      simp only [dispatchesAction, actionValue, jsGtZero]
      norm_num
    | num x =>
      simp only [dispatchesAction, actionValue_num]
      constructor
      · intro h
        exact Or.inr (Or.inr ⟨x, rfl, h⟩)
      · rintro (h | h | ⟨y, hy, hgt⟩) <;> first
          | exact absurd h (by simp)
          | (cases hy; exact hgt)

/-! ## V3 `Swap` event log parsing

`parseSwapLog` (standalone-agent.js lines 1209-1227) slices the log's data
into two 32-byte words, decodes each as a two's-complement signed int256,
picks `amount1` when token0 was the input token (else `amount0`), and takes
the absolute value. A word is modelled as its numeric value (a `ℕ` below
`2^256`). -/

/-- `parseSignedInt256` (lines 1212-1217): two's-complement decode of a
256-bit word. -/
def parseSignedInt256 (v : ℕ) : ℤ :=
  if (v : ℤ) > 2 ^ 255 - 1 then (v : ℤ) - 2 ^ 256 else (v : ℤ)

/-- `formatTokenAmount` (lines 960-968) renders `amount` as the decimal string
`whole.frac` with `decimals` fractional digits; for the non-negative amounts it
is called on, that string denotes exactly the rational `amount / 10^decimals`,
which is how we model it. -/
def formatTokenAmount (amount : ℤ) (decimals : ℕ) : ℚ :=
  (amount : ℚ) / 10 ^ decimals

/-- `parseSwapLog` (lines 1209-1227) on a log whose data words have numeric
values `amount0Word`, `amount1Word`. Returns the unsigned raw output amount
and its readable form. -/
def parseSwapLog (amount0Word amount1Word : ℕ) (tokenDecimals : ℕ)
    (isToken0In : Bool) : ℕ × ℚ :=
  let amount0 := parseSignedInt256 amount0Word
  let amount1 := parseSignedInt256 amount1Word
  let tokenOutSigned := if isToken0In then amount1 else amount0
  let tokenOutAmount := if tokenOutSigned < 0 then -tokenOutSigned else tokenOutSigned
  (tokenOutAmount.toNat, formatTokenAmount tokenOutAmount tokenDecimals)

/-- The 256-bit two's-complement encoding of a signed integer, as a word value. -/
def encodeTwosComplement (i : ℤ) : ℕ := (i % 2 ^ 256).toNat

lemma parseSignedInt256_encode (i : ℤ) (hlo : -(2 ^ 255) ≤ i) (hhi : i < 2 ^ 255) :
    parseSignedInt256 (encodeTwosComplement i) = i := by
  unfold parseSignedInt256 encodeTwosComplement
  split <;> omega

/-- C4: for every V3 `Swap` log whose data encodes two's-complement signed
int256 values `(amount0, amount1)` and every input direction, the parser
returns the correct unsigned output amount: `|amount1|` if token0 was the
input token, else `|amount0|` (readable form included). -/
theorem v3_swap_log_roundtrip (a0 a1 : ℤ) (dec : ℕ) (isToken0In : Bool)
    (h0lo : -(2 ^ 255) ≤ a0) (h0hi : a0 < 2 ^ 255)
    (h1lo : -(2 ^ 255) ≤ a1) (h1hi : a1 < 2 ^ 255) :
    parseSwapLog (encodeTwosComplement a0) (encodeTwosComplement a1) dec isToken0In
      = (if isToken0In then a1.natAbs else a0.natAbs,
         formatTokenAmount (if isToken0In then (a1.natAbs : ℤ) else (a0.natAbs : ℤ)) dec) := by
  unfold parseSwapLog
  rw [parseSignedInt256_encode a0 h0lo h0hi, parseSignedInt256_encode a1 h1lo h1hi]
  cases isToken0In <;> simp only [if_true, if_false, Bool.false_eq_true, Prod.mk.injEq]
  · constructor
    · split <;> omega
    · have : (if a0 < 0 then -a0 else a0) = (a0.natAbs : ℤ) := by split <;> omega
      rw [this]
  · constructor
    · split <;> omega
    · have : (if a1 < 0 then -a1 else a1) = (a1.natAbs : ℤ) := by split <;> omega
      rw [this]

set_option maxRecDepth 100000 in
/-- Witness for C4 at the concrete pair `(amount0, amount1) = (-12345, 67)`. -/
theorem v3_swap_log_roundtrip_witness :
    parseSwapLog (encodeTwosComplement (-12345)) (encodeTwosComplement 67) 18 true
      = ((67 : ℤ).natAbs, formatTokenAmount ((67 : ℤ).natAbs : ℤ) 18) := by
  have h := v3_swap_log_roundtrip (-12345) 67 18 true
    (by decide) (by decide) (by decide) (by decide)
  simpa using h

/-! ## Gas fee configuration

`getGasConfig` (standalone-agent.js lines 803-832): on a successful
`provider.getFeeData()` it derives gwei fee values from the reported
`gasPrice` and `maxPriorityFeePerGas` (each of which may be absent or `0n`,
both falsy in JS); on an RPC exception it returns fixed fallback values.
Quantities are the gwei amounts as exact rationals. -/

structure FeeData where
  gasPrice : Option ℚ
  maxPriorityFeePerGas : Option ℚ
deriving DecidableEq

structure GasConfig where
  maxFeePerGasGwei : ℚ
  maxPriorityFeePerGasGwei : ℚ
  txType : ℕ
deriving DecidableEq

/-- Whether a reported fee field is truthy in JS (`0n` is falsy). -/
def truthyFee : Option ℚ → Bool
  | none => false
  | some q => decide (q ≠ 0)

/-- `getGasConfig` (lines 803-832). `.error` is the catch branch. -/
def getGasConfig : Except Unit FeeData → GasConfig
  | .error _ => ⟨5 / 100, 1 / 1000, 2⟩
  | .ok feeData =>
    let baseGasPriceGwei : ℚ :=
      match feeData.gasPrice with
      | some g => if g = 0 then 1 / 100 else g
      | none => 1 / 100
    let basePriorityFeeGwei : ℚ :=
      match feeData.maxPriorityFeePerGas with
      | some p =>
        if p = 0 then max (1 / 100) (baseGasPriceGwei * (1 / 10))
        else max (1 / 100) p
      | none => max (1 / 100) (baseGasPriceGwei * (1 / 10))
    let gasMultiplier : ℚ := 101 / 100
    let priorityFeeGwei := basePriorityFeeGwei * gasMultiplier
    let maxFeeGwei := (baseGasPriceGwei + priorityFeeGwei) * gasMultiplier
    ⟨maxFeeGwei, priorityFeeGwei, 2⟩

/-- The fee suggestion exactly as the specification sentence states it
("base = latest `gas_price`; priority = max(0.01 gwei, reported
`priority_fee`, 10% of base); both multiplied by 1.01", same fallback):
written for comparison against `getGasConfig`. -/
def specClaimGasConfig : Except Unit FeeData → GasConfig
  | .error _ => ⟨5 / 100, 1 / 1000, 2⟩
  | .ok feeData =>
    let base : ℚ := (feeData.gasPrice).getD 0
    let reported : ℚ := (feeData.maxPriorityFeePerGas).getD 0
    let priority := max (1 / 100) (max reported (base * (1 / 10))) * (101 / 100)
    ⟨base * (101 / 100), priority, 2⟩

/-- Counterexample to C3 as stated: with `gas_price = 1` gwei and a reported
`priority_fee = 0.05` gwei, the code returns
`priority = max(0.01, 0.05) × 1.01 = 0.0505` (the three-way max with 10% of
base would give `0.101`) and `max_fee = (base + priority) × 1.01 = 1.061005`
(not `base × 1.01 = 1.01`). -/
theorem gas_config_counterexample :
    getGasConfig (.ok ⟨some 1, some (1 / 20)⟩)
        ≠ specClaimGasConfig (.ok ⟨some 1, some (1 / 20)⟩) ∧
    (getGasConfig (.ok ⟨some 1, some (1 / 20)⟩)).maxPriorityFeePerGasGwei = 101 / 2000 ∧
    (specClaimGasConfig (.ok ⟨some 1, some (1 / 20)⟩)).maxPriorityFeePerGasGwei = 101 / 1000 ∧
    (getGasConfig (.ok ⟨some 1, some (1 / 20)⟩)).maxFeePerGasGwei = 212201 / 200000 ∧
    (specClaimGasConfig (.ok ⟨some 1, some (1 / 20)⟩)).maxFeePerGasGwei = 101 / 100 := by
  have hmax : max (1 / 100 : ℚ) (1 / 20) = 1 / 20 := by
    rw [max_eq_right]; norm_num
  have hmax2 : max (1 / 20 : ℚ) (1 * (1 / 10)) = 1 / 10 := by
    rw [max_eq_right] <;> norm_num
  have hmax3 : max (1 / 100 : ℚ) (1 / 10) = 1 / 10 := by
    rw [max_eq_right]; norm_num
  refine ⟨?_, ?_, ?_, ?_, ?_⟩ <;>
    simp only [getGasConfig, specClaimGasConfig, Option.getD_some, hmax, hmax2, hmax3] <;>
    norm_num

/-- The fee suggestion exactly as the amended C3 states it: when the RPC call
succeeds, `base` is the reported `gas_price` when that is present and
non-zero, and 0.01 gwei otherwise (a reported `0n` is falsy in JS);
`priority_fee = max(0.01 gwei, reported priority_fee) × 1.01` when a non-zero
priority fee is reported, and `max(0.01 gwei, 10% of base) × 1.01` otherwise;
and `max_fee = (base + priority_fee) × 1.01`. When the RPC call fails,
`max_fee = 0.05` gwei and `priority_fee = 0.001` gwei. The transaction type is
always 2 (EIP-1559). -/
def specAmendedGasConfig : Except Unit FeeData → GasConfig
  | .error _ => ⟨5 / 100, 1 / 1000, 2⟩
  | .ok feeData =>
    let base : ℚ :=
      match feeData.gasPrice with
      | some g => if g = 0 then 1 / 100 else g
      | none => 1 / 100
    let priority : ℚ :=
      match feeData.maxPriorityFeePerGas with
      | some p =>
        if p = 0 then max (1 / 100) (base * (1 / 10)) * (101 / 100)
        else max (1 / 100) p * (101 / 100)
      | none => max (1 / 100) (base * (1 / 10)) * (101 / 100)
    ⟨(base + priority) * (101 / 100), priority, 2⟩

/-- C3 amended: for every RPC outcome — any combination of present/absent and
zero/non-zero reported fields on success, and the failure fallback — the code's
fee suggestion equals `specAmendedGasConfig`, and the transaction type is
always 2 (EIP-1559). -/
theorem gas_config_amended :
    (∀ fd : Except Unit FeeData, getGasConfig fd = specAmendedGasConfig fd) ∧
    (∀ fd : Except Unit FeeData, (getGasConfig fd).txType = 2) := by
  have hmain : ∀ fd : Except Unit FeeData, getGasConfig fd = specAmendedGasConfig fd := by
    intro fd
    cases fd with
    | error e => rfl
    | ok d =>
      rcases d with ⟨gp, pp⟩
      rcases gp with _ | g <;> rcases pp with _ | p <;>
        simp only [getGasConfig, specAmendedGasConfig] <;>
        split_ifs <;> rfl
  refine ⟨hmain, ?_⟩
  intro fd
  cases fd with
  | error e => rfl
  | ok d => rfl

/-! ## Manual buy sizing (`POST /buy` → `executeBuy`)

The control server (standalone-agent.js lines 1718-1744) turns a requested
`ethAmount` into `actionPercent = Math.min(Math.round(ethAmount / maxEthPerTrade * 100), 100)`
and calls `executeBuy`, which spends
`config.maxEthPerTrade * (actionPercent / 100)` ETH (line 1283). -/

/-- `Math.round`: round half away from zero upward, i.e. `⌊x + 1/2⌋`. -/
def jsMathRound (x : ℚ) : ℤ := ⌊x + 1 / 2⌋

/-- Line 1733: the action percent computed for a manual buy. -/
def controlBuyActionPercent (ethAmount maxEthPerTrade : ℚ) : ℤ :=
  min (jsMathRound (ethAmount / maxEthPerTrade * 100)) 100

/-- Line 1283: the ETH amount `executeBuy` spends for a given action percent. -/
def executeBuyEthAmount (maxEthPerTrade actionPercent : ℚ) : ℚ :=
  maxEthPerTrade * (actionPercent / 100)

/-- The ETH spent by the buy a `POST /buy` request triggers. -/
def controlBuySpentEth (ethAmount maxEthPerTrade : ℚ) : ℚ :=
  executeBuyEthAmount maxEthPerTrade ((controlBuyActionPercent ethAmount maxEthPerTrade : ℤ) : ℚ)

/-- C9: a `POST /buy` with `ethAmount > 0` on an admissible pair spends
`maxEthPerTrade × min(round(ethAmount / maxEthPerTrade × 100), 100) / 100`
ETH, never more than `maxEthPerTrade`; and when
`ethAmount < maxEthPerTrade / 200` the action percent rounds to 0, so the
attempted buy is for 0 ETH. -/
theorem control_buy_capped (ethAmount maxEthPerTrade : ℚ)
    (he : 0 < ethAmount) (hm : 0 < maxEthPerTrade) :
    controlBuySpentEth ethAmount maxEthPerTrade
      = maxEthPerTrade *
          (((min (jsMathRound (ethAmount / maxEthPerTrade * 100)) 100 : ℤ) : ℚ) / 100) ∧
    controlBuySpentEth ethAmount maxEthPerTrade ≤ maxEthPerTrade ∧
    (ethAmount < maxEthPerTrade / 200 →
      controlBuyActionPercent ethAmount maxEthPerTrade = 0 ∧
      controlBuySpentEth ethAmount maxEthPerTrade = 0) := by
  refine ⟨rfl, ?_, ?_⟩
  · unfold controlBuySpentEth executeBuyEthAmount controlBuyActionPercent
    have h100 : ((min (jsMathRound (ethAmount / maxEthPerTrade * 100)) 100 : ℤ) : ℚ) ≤ 100 := by
      have : min (jsMathRound (ethAmount / maxEthPerTrade * 100)) 100 ≤ 100 :=
        min_le_right _ _
      exact_mod_cast this
    calc maxEthPerTrade * (((min (jsMathRound (ethAmount / maxEthPerTrade * 100)) 100 : ℤ) : ℚ) / 100)
        ≤ maxEthPerTrade * 1 := by
          apply mul_le_mul_of_nonneg_left _ hm.le
          linarith
      _ = maxEthPerTrade := mul_one _
  · intro hsmall
    have hratio : ethAmount / maxEthPerTrade * 100 < 1 / 2 := by
      have h1 : ethAmount / maxEthPerTrade < 1 / 200 := by
        rw [div_lt_div_iff₀ hm (by norm_num)]
        linarith
      nlinarith
    have hratio0 : 0 < ethAmount / maxEthPerTrade * 100 := by positivity
    have hround : jsMathRound (ethAmount / maxEthPerTrade * 100) = 0 := by
      unfold jsMathRound
      rw [Int.floor_eq_zero_iff, Set.mem_Ico]
      constructor <;> linarith
    have hap : controlBuyActionPercent ethAmount maxEthPerTrade = 0 := by
      unfold controlBuyActionPercent
      rw [hround]
      decide
    refine ⟨hap, ?_⟩
    unfold controlBuySpentEth executeBuyEthAmount
    rw [hap]
    norm_num

/-- Witness for C9 at `ethAmount = 1`, `maxEthPerTrade = 2`. -/
theorem control_buy_capped_witness :
    controlBuySpentEth 1 2 ≤ 2 :=
  (control_buy_capped 1 2 (by norm_num) (by norm_num)).2.1

/-! ## Trade lifecycle: selling and closing trades

`executeSell` (standalone-agent.js lines 1393-1509) re-reads the on-chain
balance, closes the trade when the balance is zero, otherwise computes
`sellAmount = (actualBalance * BigInt(Math.min(actionPercent, 100))) / 100n`
(`BigInt(x)` throws for a non-integer JS number), performs the swap, and on
success either closes the trade (`actionPercent >= 100`) or keeps it open with
the raw remainder and its readable form. The swap itself (approvals, routing)
is an external effect; its parsed ETH output is a parameter (`none` = the swap
failed). -/

structure ActiveTrade where
  pairAddress : String
  token0 : String
  token1 : String
  tokenAddress : String
  baseToken : String
  token0Decimals : ℕ
  token1Decimals : ℕ
  entry_price : ℚ
  current_price : ℚ
  price_change_pct : ℚ
  eth_spent : ℚ
  eth_sold : ℚ
  tokens_bought : ℚ
  tokens_in_possession : ℚ
  tokens_in_possession_raw : ℤ
  opened_at : ℕ
deriving DecidableEq

/-- A closed trade: the spread `{...trade, exit_price, closed_at,
realized_pnl_eth, realized_pnl_pct, close_reason?}`. The full-exit close
(line 1491) sets no `close_reason`, hence the `Option`. -/
structure InactiveTrade where
  base : ActiveTrade
  exit_price : ℚ
  closed_at : ℕ
  realized_pnl_eth : ℚ
  realized_pnl_pct : ℚ
  close_reason : Option String
deriving DecidableEq

/-- Lines 1399-1403: the token being sold (`trade.tokenAddress ||
(trade.token0 === trade.baseToken ? trade.token1 : trade.token0)`;
the empty string is the falsy "absent" value). -/
def sellTokenAddress (t : ActiveTrade) : String :=
  if t.tokenAddress ≠ "" then t.tokenAddress
  else if t.token0 = t.baseToken then t.token1 else t.token0

/-- `trade.token0Decimals || 18` (line 1496): 0 is falsy in JS, so a stored 0
falls back to 18. -/
def effDecimals (d : ℕ) : ℕ := if d = 0 then 18 else d

/-- Lines 1413-1420: zero-balance close inside `executeSell`
(`close_reason = "zero_balance"`). -/
def closeZeroBalanceSell (t : ActiveTrade) (now : ℕ) : InactiveTrade :=
  let pnlEth := t.eth_sold - t.eth_spent
  let pnlPct := if 0 < t.eth_spent then pnlEth / t.eth_spent * 100 else 0
  ⟨t, t.current_price, now, pnlEth, pnlPct, some "zero_balance"⟩

/-- Lines 1487-1491: full policy exit close (after `eth_sold` was already
incremented by the parsed swap output; no `close_reason` is set). -/
def closeFullExit (t : ActiveTrade) (now : ℕ) : InactiveTrade :=
  let totalPnl := t.eth_sold - t.eth_spent
  let pnlPct := if 0 < t.eth_spent then totalPnl / t.eth_spent * 100 else 0
  ⟨t, t.current_price, now, totalPnl, pnlPct, none⟩

/-- `checkTradeBalances` zero-balance reconciliation close (lines 773-778,
`close_reason = "zero_balance"`). -/
def checkTradeBalancesClose (t : ActiveTrade) (now : ℕ) : InactiveTrade :=
  let pnlEth := t.eth_sold - t.eth_spent
  let pnlPct := if 0 < t.eth_spent then pnlEth / t.eth_spent * 100 else 0
  ⟨t, t.current_price, now, pnlEth, pnlPct, some "zero_balance"⟩

/-- `BigInt(x)` on a JS number: the integer value, or a throw (`none`) when
the number is not an integer. -/
def jsBigIntOfNumber (q : ℚ) : Option ℤ :=
  if q.den = 1 then some q.num else none

inductive SellResult where
  | closedZeroBalance : InactiveTrade → SellResult
  | invalidPercent : SellResult
  | noopZeroSellAmount : SellResult
  | swapFailed : SellResult
  | closedFullExit : InactiveTrade → SellResult
  | partialExit : ActiveTrade → SellResult
deriving DecidableEq

/-- `executeSell` (lines 1393-1509) given the re-read on-chain balance
`actualBalance` and the parsed output `swapOutput` of the swap (when it
succeeds). `invalidPercent` is the throw from `BigInt(Math.min(actionPercent, 100))`
on a non-integer percent (caught at line 1503: nothing happens). -/
def executeSellModel (trade : ActiveTrade) (actualBalance : ℕ) (actionPercent : ℚ)
    (swapOutput : Option ℚ) (now : ℕ) : SellResult :=
  if actualBalance = 0 then
    .closedZeroBalance (closeZeroBalanceSell trade now)
  else
    match jsBigIntOfNumber (min actionPercent 100) with
    | none => .invalidPercent
    | some m =>
      let sellAmount : ℤ := ((actualBalance : ℤ) * m).tdiv 100
      if sellAmount = 0 then .noopZeroSellAmount
      else
        match swapOutput with
        | none => .swapFailed
        | some ethReceived =>
          let trade' := { trade with eth_sold := trade.eth_sold + ethReceived }
          if 100 ≤ actionPercent then
            .closedFullExit (closeFullExit trade' now)
          else
            let remainingBalance := (actualBalance : ℤ) - sellAmount
            .partialExit { trade' with
              tokens_in_possession :=
                formatTokenAmount remainingBalance (effDecimals trade.token0Decimals),
              tokens_in_possession_raw := remainingBalance }

/-- The decimals of the token actually sold, read off the trade's stored
per-token decimals — what the specification sentence "the readable value being
the raw remainder expressed in the sold token's decimals" refers to. -/
def soldTokenDecimals (t : ActiveTrade) : ℕ :=
  if sellTokenAddress t = t.token0 then effDecimals t.token0Decimals
  else effDecimals t.token1Decimals

/-- Extracts the still-open trade from a partial-exit result. -/
def partialResultTrade : SellResult → Option ActiveTrade
  | .partialExit t => some t
  | _ => none

/-- A trade selling token1 (a 6-decimals token) against WETH (= token0,
18 decimals): the input of the counterexample to C2. -/
def c2Trade : ActiveTrade where
  pairAddress := "0xpair"
  token0 := "0x4200000000000000000000000000000000000006"
  token1 := "0xtoken6dec"
  tokenAddress := "0xtoken6dec"
  baseToken := "0x4200000000000000000000000000000000000006"
  token0Decimals := 18
  token1Decimals := 6
  entry_price := 1
  current_price := 1
  price_change_pct := 0
  eth_spent := 1
  eth_sold := 0
  tokens_bought := 1
  tokens_in_possession := 1
  tokens_in_possession_raw := 1000000
  opened_at := 0

/-- Counterexample to C2 as stated: selling 50% of a balance of 1000000 raw
units of the 6-decimals token leaves a raw remainder of 500000, but the stored
readable value is `500000 / 10^18` (the code uses `token0Decimals`, here the
WETH side) and not `500000 / 10^6 = 0.5`, the remainder expressed in the sold
token's decimals. -/
theorem sell_readable_decimals_counterexample :
    (partialResultTrade (executeSellModel c2Trade 1000000 50 (some 1) 0)).map
        (fun t => (t.tokens_in_possession, t.tokens_in_possession_raw))
      = some ((500000 : ℚ) / 10 ^ 18, (500000 : ℤ)) ∧
    soldTokenDecimals c2Trade = 6 ∧
    (500000 : ℚ) / 10 ^ 18 ≠ (500000 : ℚ) / 10 ^ soldTokenDecimals c2Trade := by
  have hsold : soldTokenDecimals c2Trade = 6 := by decide
  refine ⟨?_, hsold, ?_⟩
  · norm_num [executeSellModel, c2Trade, jsBigIntOfNumber, partialResultTrade,
      formatTokenAmount, effDecimals, Int.tdiv]
  · rw [hsold]
    norm_num

/-- C2 amended: for an exit with integer `action_percent p`, `0 < p < 100`, on
a positive re-read balance `B`, the amount sold is
`sell_raw = (B × p) / 100` (BigInt division); if `sell_raw = 0` nothing
happens; and after a successful swap the trade stays open with
`tokens_in_possession` set to `B − sell_raw` in raw form, and in readable form
as that remainder expressed in `token0`'s stored decimals (18 when the stored
value is 0) — not necessarily the sold token's decimals. -/
theorem sell_partial_exit_amended (t : ActiveTrade) (B : ℕ) (p : ℤ) (er : ℚ) (now : ℕ)
    (hB : 0 < B) (hp0 : 0 < p) (hp100 : p < 100) :
    (((B : ℤ) * p).tdiv 100 = 0 →
      executeSellModel t B (p : ℚ) (some er) now = .noopZeroSellAmount) ∧
    (((B : ℤ) * p).tdiv 100 ≠ 0 →
      executeSellModel t B (p : ℚ) (some er) now
        = .partialExit { t with
            eth_sold := t.eth_sold + er,
            tokens_in_possession :=
              formatTokenAmount ((B : ℤ) - ((B : ℤ) * p).tdiv 100)
                (effDecimals t.token0Decimals),
            tokens_in_possession_raw := (B : ℤ) - ((B : ℤ) * p).tdiv 100 }) := by
  have hmin : min ((p : ℚ)) 100 = (p : ℚ) := by
    apply min_eq_left
    exact_mod_cast hp100.le
  have hbig : jsBigIntOfNumber (min ((p : ℚ)) 100) = some p := by
    rw [hmin]
    simp [jsBigIntOfNumber, Rat.den_intCast, Rat.num_intCast]
  have hnot100 : ¬(100 ≤ (p : ℚ)) := by
    intro h
    have : (100 : ℤ) ≤ p := by exact_mod_cast h
    omega
  constructor
  · intro hzero
    unfold executeSellModel
    rw [if_neg (by omega), hbig]
    dsimp only
    rw [if_pos hzero]
  · intro hnz
    unfold executeSellModel
    rw [if_neg (by omega), hbig]
    dsimp only
    rw [if_neg hnz, if_neg hnot100]

/-- Witness for C2's amended theorem: balance 1000000, percent 50. -/
theorem sell_partial_exit_amended_witness :
    (0 < 1000000) ∧ (0 < (50 : ℤ)) ∧ ((50 : ℤ) < 100) ∧
    (((1000000 : ℤ) * 50).tdiv 100 ≠ 0 →
      executeSellModel c2Trade 1000000 ((50 : ℤ) : ℚ) (some 1) 0
        = .partialExit { c2Trade with
            eth_sold := c2Trade.eth_sold + 1,
            tokens_in_possession :=
              formatTokenAmount ((1000000 : ℤ) - ((1000000 : ℤ) * 50).tdiv 100)
                (effDecimals c2Trade.token0Decimals),
            tokens_in_possession_raw := (1000000 : ℤ) - ((1000000 : ℤ) * 50).tdiv 100 }) :=
  ⟨by decide, by decide, by decide,
    (sell_partial_exit_amended c2Trade 1000000 50 1 0 (by decide) (by decide) (by decide)).2⟩

/-- Mirrors I6 on a sell outcome: any trade the sell moved to the inactive
list carries `realized_pnl_eth = eth_sold − eth_spent`, with both fields read
from the closed record itself (i.e. at closing time). -/
def closedTradePnlOk : SellResult → Prop
  | .closedZeroBalance it => it.realized_pnl_eth = it.base.eth_sold - it.base.eth_spent
  | .closedFullExit it => it.realized_pnl_eth = it.base.eth_sold - it.base.eth_spent
  | _ => True

/-- C6: every trade moved into the inactive list — by a full policy exit, a
zero balance found during a sell, or zero-balance reconciliation — carries
`realized_pnl_eth = eth_sold − eth_spent`, read at closing time. -/
theorem closed_trade_realized_pnl :
    (∀ (t : ActiveTrade) (B : ℕ) (p : ℚ) (so : Option ℚ) (now : ℕ),
      closedTradePnlOk (executeSellModel t B p so now)) ∧
    (∀ (t : ActiveTrade) (now : ℕ),
      (checkTradeBalancesClose t now).realized_pnl_eth
        = (checkTradeBalancesClose t now).base.eth_sold
            - (checkTradeBalancesClose t now).base.eth_spent) := by
  constructor
  · intro t B p so now
    unfold executeSellModel
    dsimp only
    repeat' split
    all_goals trivial
  · intro t now
    rfl

/-! ## Nonce-aware transaction submission with retry

`sendTransactionWithRetry` (standalone-agent.js lines 834-866): a `while
(attempts < maxRetries)` loop around `txFn(currentNonce)`. On
`NONCE_EXPIRED` / "nonce too low" it re-fetches the nonce with
`wallet.getNonce("latest")` and retries; on `NETWORK_ERROR` it sleeps 250 ms
and retries; any other failure breaks out of the loop; after the loop (or the
break) the last error is thrown. The environment is modelled by `outcome`
(what attempt `i` returns) and `latestNonce` (what a nonce re-fetch after
attempt `i` returns); the trace records the nonce used by each attempt, the
sleeps performed, and the final result. -/

inductive TxError where
  | nonceExpired : TxError
  | networkError : TxError
  | other : ℕ → TxError
deriving DecidableEq

inductive TxAttempt where
  | success : ℕ → TxAttempt
  | failure : TxError → TxAttempt
deriving DecidableEq

inductive TxResult where
  | confirmed : ℕ → TxResult
  | thrown : Option TxError → TxResult
deriving DecidableEq

structure TxTrace where
  noncesUsed : List ℕ
  sleepsMs : List ℕ
  result : TxResult
deriving DecidableEq

/-- The retry loop of lines 839-863, by remaining fuel (`maxRetries −
attempts`), current attempt index and current nonce; the last argument is the
`lastError` variable. -/
def retryLoop (outcome : ℕ → TxAttempt) (latestNonce : ℕ → ℕ) :
    ℕ → ℕ → ℕ → Option TxError → TxTrace
  | 0, _, _, lastError => ⟨[], [], .thrown lastError⟩
  | fuel + 1, i, nonce, _ =>
    match outcome i with
    | .success r => ⟨[nonce], [], .confirmed r⟩
    | .failure .nonceExpired =>
      let t := retryLoop outcome latestNonce fuel (i + 1) (latestNonce i) (some .nonceExpired)
      ⟨nonce :: t.noncesUsed, t.sleepsMs, t.result⟩
    | .failure .networkError =>
      let t := retryLoop outcome latestNonce fuel (i + 1) nonce (some .networkError)
      ⟨nonce :: t.noncesUsed, 250 :: t.sleepsMs, t.result⟩
    | .failure (.other c) => ⟨[nonce], [], .thrown (some (.other c))⟩

/-- `sendTransactionWithRetry` (lines 834-866): starts from
`wallet.getNonce()` with `maxRetries` attempts available. -/
def sendTransactionWithRetry (outcome : ℕ → TxAttempt) (latestNonce : ℕ → ℕ)
    (initialNonce maxRetries : ℕ) : TxTrace :=
  retryLoop outcome latestNonce maxRetries 0 initialNonce none

section RetryLemmas

variable {o : ℕ → TxAttempt} {l : ℕ → ℕ}

lemma retryLoop_zero (i n : ℕ) (e : Option TxError) :
    retryLoop o l 0 i n e = ⟨[], [], .thrown e⟩ := rfl

lemma retryLoop_success {i r : ℕ} (h : o i = .success r) (f n : ℕ) (e : Option TxError) :
    retryLoop o l (f + 1) i n e = ⟨[n], [], .confirmed r⟩ := by
  unfold retryLoop; rw [h]

lemma retryLoop_nonceExpired {i : ℕ} (h : o i = .failure .nonceExpired)
    (f n : ℕ) (e : Option TxError) :
    retryLoop o l (f + 1) i n e =
      ⟨n :: (retryLoop o l f (i + 1) (l i) (some .nonceExpired)).noncesUsed,
       (retryLoop o l f (i + 1) (l i) (some .nonceExpired)).sleepsMs,
       (retryLoop o l f (i + 1) (l i) (some .nonceExpired)).result⟩ := by
  conv_lhs => unfold retryLoop
  rw [h]

lemma retryLoop_networkError {i : ℕ} (h : o i = .failure .networkError)
    (f n : ℕ) (e : Option TxError) :
    retryLoop o l (f + 1) i n e =
      ⟨n :: (retryLoop o l f (i + 1) n (some .networkError)).noncesUsed,
       250 :: (retryLoop o l f (i + 1) n (some .networkError)).sleepsMs,
       (retryLoop o l f (i + 1) n (some .networkError)).result⟩ := by
  conv_lhs => unfold retryLoop
  rw [h]

lemma retryLoop_other {i c : ℕ} (h : o i = .failure (.other c)) (f n : ℕ)
    (e : Option TxError) :
    retryLoop o l (f + 1) i n e = ⟨[n], [], .thrown (some (.other c))⟩ := by
  unfold retryLoop; rw [h]

lemma retryLoop_length_le : ∀ (fuel i n : ℕ) (e : Option TxError),
    (retryLoop o l fuel i n e).noncesUsed.length ≤ fuel := by
  intro fuel
  induction fuel with
  | zero => intro i n e; simp [retryLoop_zero]
  | succ f ih =>
    intro i n e
    rcases h : o i with r | err
    · simp [retryLoop_success h]
    · rcases err with _ | _ | c
      · simp only [retryLoop_nonceExpired h, List.length_cons]
        exact Nat.add_le_add_right (ih _ _ _) 1
      · simp only [retryLoop_networkError h, List.length_cons]
        exact Nat.add_le_add_right (ih _ _ _) 1
      · simp [retryLoop_other h]

lemma retryLoop_first_nonce {fuel : ℕ} (i n : ℕ) (e : Option TxError) (hf : 0 < fuel) :
    (retryLoop o l fuel i n e).noncesUsed[0]? = some n := by
  rcases fuel with _ | f
  · omega
  · rcases h : o i with r | err
    · rw [retryLoop_success h]; simp
    · rcases err with _ | _ | c
      · rw [retryLoop_nonceExpired h]; simp
      · rw [retryLoop_networkError h]; simp
      · rw [retryLoop_other h]; simp

lemma retryLoop_other_terminal : ∀ (fuel i n : ℕ) (e : Option TxError) (j c : ℕ),
    o (i + j) = .failure (.other c) →
    j < (retryLoop o l fuel i n e).noncesUsed.length →
    (retryLoop o l fuel i n e).noncesUsed.length = j + 1 ∧
      (retryLoop o l fuel i n e).result = .thrown (some (.other c)) := by
  intro fuel
  induction fuel with
  | zero => intro i n e j c _ hj; simp [retryLoop_zero] at hj
  | succ f ih =>
    intro i n e j c ho hj
    rcases hoi : o i with r | err
    · rw [retryLoop_success hoi] at hj
      simp at hj
      subst hj
      rw [Nat.add_zero, hoi] at ho
      exact absurd ho (by simp)
    · rcases err with _ | _ | c'
      · rw [retryLoop_nonceExpired hoi] at hj ⊢
        rcases j with _ | j'
        · rw [Nat.add_zero, hoi] at ho
          simp at ho
        · simp only [List.length_cons, Nat.add_lt_add_iff_right] at hj
          have ho' : o ((i + 1) + j') = .failure (.other c) := by
            rw [show (i + 1) + j' = i + (j' + 1) by omega]; exact ho
          have hr := ih (i + 1) (l i) (some .nonceExpired) j' c ho' hj
          exact ⟨by simp only [List.length_cons]; omega, hr.2⟩
      · rw [retryLoop_networkError hoi] at hj ⊢
        rcases j with _ | j'
        · rw [Nat.add_zero, hoi] at ho
          simp at ho
        · simp only [List.length_cons, Nat.add_lt_add_iff_right] at hj
          have ho' : o ((i + 1) + j') = .failure (.other c) := by
            rw [show (i + 1) + j' = i + (j' + 1) by omega]; exact ho
          have hr := ih (i + 1) n (some .networkError) j' c ho' hj
          exact ⟨by simp only [List.length_cons]; omega, hr.2⟩
      · rw [retryLoop_other hoi] at hj ⊢
        simp at hj
        subst hj
        rw [Nat.add_zero, hoi] at ho
        simp only [TxAttempt.failure.injEq, TxError.other.injEq] at ho
        subst ho
        exact ⟨rfl, rfl⟩

lemma retryLoop_nonce_refetch : ∀ (fuel i n : ℕ) (e : Option TxError) (j : ℕ),
    o (i + j) = .failure .nonceExpired →
    j + 1 < (retryLoop o l fuel i n e).noncesUsed.length →
    (retryLoop o l fuel i n e).noncesUsed[j + 1]? = some (l (i + j)) := by
  intro fuel
  induction fuel with
  | zero => intro i n e j _ hj; simp [retryLoop_zero] at hj
  | succ f ih =>
    intro i n e j ho hj
    rcases hoi : o i with r | err
    · rw [retryLoop_success hoi] at hj
      simp at hj
    · rcases err with _ | _ | c'
      · rw [retryLoop_nonceExpired hoi] at hj ⊢
        rcases j with _ | j'
        · simp only [List.length_cons, Nat.add_lt_add_iff_right] at hj
          simp only [List.getElem?_cons_succ, Nat.add_zero]
          exact retryLoop_first_nonce _ _ _ (lt_of_le_of_lt (Nat.zero_le _)
            (lt_of_lt_of_le hj (retryLoop_length_le _ _ _ _)))
        · simp only [List.length_cons, Nat.add_lt_add_iff_right] at hj
          simp only [List.getElem?_cons_succ]
          have ho' : o ((i + 1) + j') = .failure .nonceExpired := by
            rw [show (i + 1) + j' = i + (j' + 1) by omega]; exact ho
          have := ih (i + 1) (l i) (some .nonceExpired) j' ho' hj
          rw [this, show (i + 1) + j' = i + (j' + 1) by omega]
      · rw [retryLoop_networkError hoi] at hj ⊢
        rcases j with _ | j'
        · rw [Nat.add_zero, hoi] at ho
          simp at ho
        · simp only [List.length_cons, Nat.add_lt_add_iff_right] at hj
          simp only [List.getElem?_cons_succ]
          have ho' : o ((i + 1) + j') = .failure .nonceExpired := by
            rw [show (i + 1) + j' = i + (j' + 1) by omega]; exact ho
          have := ih (i + 1) n (some .networkError) j' ho' hj
          rw [this, show (i + 1) + j' = i + (j' + 1) by omega]
      · rw [retryLoop_other hoi] at hj
        simp at hj

lemma retryLoop_nonce_kept : ∀ (fuel i n : ℕ) (e : Option TxError) (j : ℕ),
    o (i + j) = .failure .networkError →
    j + 1 < (retryLoop o l fuel i n e).noncesUsed.length →
    (retryLoop o l fuel i n e).noncesUsed[j + 1]?
      = (retryLoop o l fuel i n e).noncesUsed[j]? := by
  intro fuel
  induction fuel with
  | zero => intro i n e j _ hj; simp [retryLoop_zero] at hj
  | succ f ih =>
    intro i n e j ho hj
    rcases hoi : o i with r | err
    · rw [retryLoop_success hoi] at hj
      simp at hj
    · rcases err with _ | _ | c'
      · rw [retryLoop_nonceExpired hoi] at hj ⊢
        rcases j with _ | j'
        · rw [Nat.add_zero, hoi] at ho
          simp at ho
        · simp only [List.length_cons, Nat.add_lt_add_iff_right] at hj
          simp only [List.getElem?_cons_succ]
          have ho' : o ((i + 1) + j') = .failure .networkError := by
            rw [show (i + 1) + j' = i + (j' + 1) by omega]; exact ho
          exact ih (i + 1) (l i) (some .nonceExpired) j' ho' hj
      · rw [retryLoop_networkError hoi] at hj ⊢
        rcases j with _ | j'
        · simp only [List.length_cons, Nat.add_lt_add_iff_right] at hj
          simp only [List.getElem?_cons_succ, List.getElem?_cons_zero]
          exact retryLoop_first_nonce _ _ _ (lt_of_lt_of_le hj (retryLoop_length_le _ _ _ _))
        · simp only [List.length_cons, Nat.add_lt_add_iff_right] at hj
          simp only [List.getElem?_cons_succ]
          have ho' : o ((i + 1) + j') = .failure .networkError := by
            rw [show (i + 1) + j' = i + (j' + 1) by omega]; exact ho
          exact ih (i + 1) n (some .networkError) j' ho' hj
      · rw [retryLoop_other hoi] at hj
        simp at hj

lemma retryLoop_sleeps : ∀ (fuel i n : ℕ) (e : Option TxError),
    (retryLoop o l fuel i n e).sleepsMs
      = ((List.range' i (retryLoop o l fuel i n e).noncesUsed.length).filter
          (fun j => o j = TxAttempt.failure .networkError)).map (fun _ => 250) := by
  intro fuel
  induction fuel with
  | zero => intro i n e; simp [retryLoop_zero]
  | succ f ih =>
    intro i n e
    rcases hoi : o i with r | err
    · rw [retryLoop_success hoi]
      simp [List.range'_succ, hoi]
    · rcases err with _ | _ | c'
      · rw [retryLoop_nonceExpired hoi]
        simp only [List.length_cons, List.range'_succ, List.filter_cons, hoi]
        rw [if_neg (by decide)]
        exact ih (i + 1) (l i) (some .nonceExpired)
      · rw [retryLoop_networkError hoi]
        simp only [List.length_cons, List.range'_succ, List.filter_cons, hoi]
        rw [if_pos (by decide), List.map_cons]
        rw [ih (i + 1) n (some .networkError)]
      · rw [retryLoop_other hoi]
        simp [List.range'_succ, hoi]

end RetryLemmas

/-- C7: the submission routine makes at most 3 attempts (the first with the
wallet's next nonce); an attempt failing with a "nonce too low"/expired error
is followed by an attempt using the nonce re-fetched from the latest-block
tag; an attempt failing with a generic network error is followed by an attempt
with the same nonce, with 250 ms sleeps occurring exactly at the
network-failure attempts; and any other failure is terminal — it ends the loop
at that attempt and the last error is propagated to the caller. -/
theorem tx_submit_retry_policy (outcome : ℕ → TxAttempt) (latestNonce : ℕ → ℕ) (n0 : ℕ) :
    (sendTransactionWithRetry outcome latestNonce n0 3).noncesUsed.length ≤ 3 ∧
    (sendTransactionWithRetry outcome latestNonce n0 3).noncesUsed[0]? = some n0 ∧
    (∀ i c, outcome i = .failure (.other c) →
      i < (sendTransactionWithRetry outcome latestNonce n0 3).noncesUsed.length →
      (sendTransactionWithRetry outcome latestNonce n0 3).noncesUsed.length = i + 1 ∧
        (sendTransactionWithRetry outcome latestNonce n0 3).result
          = .thrown (some (.other c))) ∧
    (∀ i, outcome i = .failure .nonceExpired →
      i + 1 < (sendTransactionWithRetry outcome latestNonce n0 3).noncesUsed.length →
      (sendTransactionWithRetry outcome latestNonce n0 3).noncesUsed[i + 1]?
        = some (latestNonce i)) ∧
    (∀ i, outcome i = .failure .networkError →
      i + 1 < (sendTransactionWithRetry outcome latestNonce n0 3).noncesUsed.length →
      (sendTransactionWithRetry outcome latestNonce n0 3).noncesUsed[i + 1]?
        = (sendTransactionWithRetry outcome latestNonce n0 3).noncesUsed[i]?) ∧
    (sendTransactionWithRetry outcome latestNonce n0 3).sleepsMs
      = ((List.range (sendTransactionWithRetry outcome latestNonce n0 3).noncesUsed.length).filter
          (fun j => outcome j = TxAttempt.failure .networkError)).map (fun _ => 250) := by
  unfold sendTransactionWithRetry
  refine ⟨retryLoop_length_le 3 0 n0 none, retryLoop_first_nonce 0 n0 none (by omega),
    ?_, ?_, ?_, ?_⟩
  · intro i c ho hi
    exact retryLoop_other_terminal 3 0 n0 none i c (by rw [Nat.zero_add]; exact ho) hi
  · intro i ho hi
    have := retryLoop_nonce_refetch 3 0 n0 none i (by rw [Nat.zero_add]; exact ho) hi
    rw [this, Nat.zero_add]
  · intro i ho hi
    exact retryLoop_nonce_kept 3 0 n0 none i (by rw [Nat.zero_add]; exact ho) hi
  · rw [retryLoop_sleeps 3 0 n0 none, List.range_eq_range']


/-! ## Market-data aggregation (per-pair rolling groups)

`integrateNewData` (standalone-agent.js lines 389-487): compute
`groupKey = Math.floor(minuteKey / groupInterval) * groupInterval`,
create the `PairState` and the `Group` when absent (seeding
`first_price = last_price = min_price = max_price` from the event), then fold
the event's price and volumes into the group. JS objects keyed by pair address
/ group key are modelled as association lists: assigning to a key updates the
first matching entry in place or appends a new one. -/

/-- Reading `obj[k]` from an association-list object. -/
def objGet {α β : Type} [DecidableEq α] : List (α × β) → α → Option β
  | [], _ => none
  | (k, v) :: t, a => if k = a then some v else objGet t a

/-- Assigning `obj[k] = v`: updates the first matching entry, else appends. -/
def objSet {α β : Type} [DecidableEq α] : List (α × β) → α → β → List (α × β)
  | [], k, v => [(k, v)]
  | (k0, v0) :: t, k, v => if k0 = k then (k, v) :: t else (k0, v0) :: objSet t k v

structure Group where
  first_price : ℚ
  last_price : ℚ
  min_price : ℚ
  max_price : ℚ
  price_change : ℚ
  price_change_pct : ℚ
  buy_volume : ℚ
  sell_volume : ℚ
  total_volume : ℚ
  buy_count : ℕ
  sell_count : ℕ
  volatility : ℚ
deriving DecidableEq

/-- A normalized feed event, restricted to the fields `integrateNewData` folds
into the group state. `processPairUpdate` (line 358) drops events with
`last_price ≤ 0` before integration. -/
structure MarketEvent where
  pairAddress : String
  last_price : ℚ
  buy_volume : ℚ
  sell_volume : ℚ
  liquidity : ℚ
  minuteKey : ℕ
deriving DecidableEq

structure PairState where
  groups : List (ℕ × Group)
  last_price : ℚ
  liquidity : ℚ
  last_group_key : ℕ
deriving DecidableEq

/-- Lines 434-450: the group seeded on creation. -/
def newGroup (lastPrice : ℚ) : Group where
  first_price := lastPrice
  last_price := lastPrice
  min_price := lastPrice
  max_price := lastPrice
  price_change := 0
  price_change_pct := 0
  buy_volume := 0
  sell_volume := 0
  total_volume := 0
  buy_count := 0
  sell_count := 0
  volatility := 0

/-- Lines 454-475: folding one event into an existing group. -/
def updateGroup (g : Group) (e : MarketEvent) : Group :=
  let last_price := e.last_price
  let max_price := if e.last_price > g.max_price then e.last_price else g.max_price
  let min_price := if e.last_price < g.min_price then e.last_price else g.min_price
  let buy_volume := g.buy_volume + e.buy_volume
  let sell_volume := g.sell_volume + e.sell_volume
  let total_volume := buy_volume + sell_volume
  let buy_count := if 0 < e.buy_volume then g.buy_count + 1 else g.buy_count
  let sell_count := if 0 < e.sell_volume then g.sell_count + 1 else g.sell_count
  let price_change := if 0 < g.first_price then last_price - g.first_price else g.price_change
  let price_change_pct :=
    if 0 < g.first_price then (last_price - g.first_price) / g.first_price * 100
    else g.price_change_pct
  let volatility :=
    if 0 < e.liquidity then total_volume / e.liquidity * 100 else g.volatility
  { g with
    last_price := last_price, max_price := max_price, min_price := min_price,
    buy_volume := buy_volume, sell_volume := sell_volume, total_volume := total_volume,
    buy_count := buy_count, sell_count := sell_count,
    price_change := price_change, price_change_pct := price_change_pct,
    volatility := volatility }

/-- Lines 393-420: the pair state created when the pair is first seen
(restricted to the aggregation fields). -/
def initialPairState (e : MarketEvent) (groupKey : ℕ) : PairState where
  groups := []
  last_price := e.last_price
  liquidity := e.liquidity
  last_group_key := groupKey

/-- Lines 433-450: `if (!pairData.groups[groupKey]) pairData.groups[groupKey] = {...}`. -/
def seededGroups (gs : List (ℕ × Group)) (e : MarketEvent) (groupKey : ℕ) :
    List (ℕ × Group) :=
  match objGet gs groupKey with
  | some _ => gs
  | none => objSet gs groupKey (newGroup e.last_price)

/-- Line 452: `const group = pairData.groups[groupKey]` (present after seeding). -/
def currentGroup (gs : List (ℕ × Group)) (e : MarketEvent) (groupKey : ℕ) : Group :=
  match objGet gs groupKey with
  | some g => g
  | none => newGroup e.last_price

/-- Lines 424-477 applied to one pair: update mutable metadata, seed the group
if new, fold the event into it, move `last_group_key` forward. -/
def integratePair (ps : PairState) (e : MarketEvent) (groupKey : ℕ) : PairState :=
  let ps := { ps with last_price := e.last_price, liquidity := e.liquidity }
  let groups := seededGroups ps.groups e groupKey
  let groups := objSet groups groupKey (updateGroup (currentGroup groups e groupKey) e)
  { ps with groups := groups, last_group_key := groupKey }

/-- `integrateNewData` (lines 389-487), restricted to the per-pair aggregation
state it mutates (the policy-evaluation dispatch at lines 479-486 reads but
does not modify it). -/
def integrateNewData (st : List (String × PairState)) (e : MarketEvent)
    (groupInterval : ℕ) : List (String × PairState) :=
  let groupKey := e.minuteKey / groupInterval * groupInterval
  let ps :=
    match objGet st e.pairAddress with
    | some p => p
    | none => initialPairState e groupKey
  objSet st e.pairAddress (integratePair ps e groupKey)

/-- The per-group invariant of I1/I2: `min ≤ first ≤ max`, `min ≤ last ≤ max`,
`total_volume = buy_volume + sell_volume`. -/
def GroupInv (g : Group) : Prop :=
  g.min_price ≤ g.first_price ∧ g.first_price ≤ g.max_price ∧
  g.min_price ≤ g.last_price ∧ g.last_price ≤ g.max_price ∧
  g.total_volume = g.buy_volume + g.sell_volume

instance (g : Group) : Decidable (GroupInv g) := by
  unfold GroupInv; infer_instance

lemma objGet_mem {α β : Type} [DecidableEq α] {l : List (α × β)} {k : α} {v : β}
    (h : objGet l k = some v) : (k, v) ∈ l := by
  induction l with
  | nil => exact nomatch h
  | cons hd t ih =>
    rcases hd with ⟨k0, v0⟩
    unfold objGet at h
    split at h
    · next heq => cases h; cases heq; exact List.mem_cons_self _ _
    · exact List.mem_cons_of_mem _ (ih h)

lemma mem_objSet {α β : Type} [DecidableEq α] {l : List (α × β)} {k : α} {v : β}
    {a : α × β} (h : a ∈ objSet l k v) : a = (k, v) ∨ a ∈ l := by
  induction l with
  | nil =>
    unfold objSet at h
    rcases List.mem_singleton.mp h with rfl
    exact Or.inl rfl
  | cons hd t ih =>
    rcases hd with ⟨k0, v0⟩
    unfold objSet at h
    split at h
    · rcases List.mem_cons.mp h with rfl | hmem
      · exact Or.inl rfl
      · exact Or.inr (List.mem_cons_of_mem _ hmem)
    · rcases List.mem_cons.mp h with rfl | hmem
      · exact Or.inr (List.mem_cons_self _ _)
      · rcases ih hmem with h1 | h1
        · exact Or.inl h1
        · exact Or.inr (List.mem_cons_of_mem _ h1)

lemma objGet_objSet_self {α β : Type} [DecidableEq α] (l : List (α × β)) (k : α) (v : β) :
    objGet (objSet l k v) k = some v := by
  induction l with
  | nil => simp [objSet, objGet]
  | cons hd t ih =>
    rcases hd with ⟨k0, v0⟩
    unfold objSet
    split
    · simp [objGet]
    · next hne =>
      unfold objGet
      rw [if_neg hne]
      exact ih

lemma objGet_objSet_ne {α β : Type} [DecidableEq α] (l : List (α × β)) (k k2 : α) (v : β)
    (h : k2 ≠ k) : objGet (objSet l k v) k2 = objGet l k2 := by
  induction l with
  | nil =>
    simp only [objSet, objGet]
    rw [if_neg (fun heq => h heq.symm)]
  | cons hd t ih =>
    rcases hd with ⟨k0, v0⟩
    unfold objSet
    split
    · next heq =>
      subst heq
      unfold objGet
      rw [if_neg (fun heq2 => h heq2.symm), if_neg (fun heq2 => h heq2.symm)]
    · unfold objGet
      split
      · rfl
      · exact ih

lemma groupInv_newGroup (lp : ℚ) : GroupInv (newGroup lp) := by
  refine ⟨le_refl _, le_refl _, le_refl _, le_refl _, ?_⟩
  show (0 : ℚ) = 0 + 0
  norm_num

lemma groupInv_updateGroup {g : Group} (e : MarketEvent) (hg : GroupInv g) :
    GroupInv (updateGroup g e) := by
  obtain ⟨h1, h2, h3, h4, h5⟩ := hg
  unfold updateGroup
  dsimp only
  refine ⟨?_, ?_, ?_, ?_, rfl⟩ <;> dsimp only <;> split <;> linarith

lemma updateGroup_first_price (g : Group) (e : MarketEvent) :
    (updateGroup g e).first_price = g.first_price := rfl


lemma mem_seededGroups {gs : List (ℕ × Group)} {e : MarketEvent} {gk : ℕ}
    {kg : ℕ × Group} (h : kg ∈ seededGroups gs e gk) :
    kg = (gk, newGroup e.last_price) ∨ kg ∈ gs := by
  unfold seededGroups at h
  split at h
  · exact Or.inr h
  · exact mem_objSet h

lemma groupInv_currentGroup {gs : List (ℕ × Group)} {e : MarketEvent} {gk : ℕ}
    (h : ∀ kg ∈ gs, GroupInv kg.2) : GroupInv (currentGroup gs e gk) := by
  unfold currentGroup
  split
  · next g hg => exact h _ (objGet_mem hg)
  · exact groupInv_newGroup _

lemma integratePair_groups_eq (ps : PairState) (e : MarketEvent) (gk : ℕ) :
    (integratePair ps e gk).groups
      = objSet (seededGroups ps.groups e gk) gk
          (updateGroup (currentGroup (seededGroups ps.groups e gk) e gk) e) := rfl

lemma integratePair_groups_inv {ps : PairState} {e : MarketEvent} {gk : ℕ}
    (h : ∀ kg ∈ ps.groups, GroupInv kg.2) :
    ∀ kg ∈ (integratePair ps e gk).groups, GroupInv kg.2 := by
  have hseed : ∀ kg ∈ seededGroups ps.groups e gk, GroupInv kg.2 := by
    intro kg hkg
    rcases mem_seededGroups hkg with rfl | hkg2
    · exact groupInv_newGroup _
    · exact h _ hkg2
  intro kg hkg
  rw [integratePair_groups_eq] at hkg
  rcases mem_objSet hkg with rfl | hkg2
  · exact groupInv_updateGroup e (groupInv_currentGroup hseed)
  · exact hseed _ hkg2

lemma seededGroups_get_ne {gs : List (ℕ × Group)} {e : MarketEvent} {gk k : ℕ}
    (hk : k ≠ gk) : objGet (seededGroups gs e gk) k = objGet gs k := by
  unfold seededGroups
  split
  · rfl
  · exact objGet_objSet_ne _ _ _ _ hk

lemma integratePair_first_price {ps : PairState} {e : MarketEvent} {gk k : ℕ}
    {g g' : Group} (hg : objGet ps.groups k = some g)
    (hg' : objGet (integratePair ps e gk).groups k = some g') :
    g'.first_price = g.first_price := by
  rw [integratePair_groups_eq] at hg'
  by_cases hk : k = gk
  · subst hk
    have hseed : seededGroups ps.groups e k = ps.groups := by
      unfold seededGroups
      rw [hg]
    rw [hseed] at hg'
    have hcur : currentGroup ps.groups e k = g := by
      unfold currentGroup
      rw [hg]
    rw [hcur, objGet_objSet_self] at hg'
    cases hg'
    exact updateGroup_first_price g e
  · rw [objGet_objSet_ne _ _ _ _ hk, seededGroups_get_ne hk, hg] at hg'
    cases hg'
    rfl

lemma integratePair_creates {ps : PairState} {e : MarketEvent} {gk : ℕ}
    (hnone : objGet ps.groups gk = none) :
    ∃ g', objGet (integratePair ps e gk).groups gk = some g' ∧
      g'.first_price = e.last_price := by
  have hseed : seededGroups ps.groups e gk = objSet ps.groups gk (newGroup e.last_price) := by
    unfold seededGroups
    rw [hnone]
  have hcur : currentGroup (seededGroups ps.groups e gk) e gk = newGroup e.last_price := by
    rw [hseed]
    unfold currentGroup
    rw [objGet_objSet_self]
  refine ⟨updateGroup (newGroup e.last_price) e, ?_, ?_⟩
  · rw [integratePair_groups_eq, hcur, objGet_objSet_self]
  · rw [updateGroup_first_price]
    rfl

lemma integrateNewData_eq_of_get (st : List (String × PairState)) (e : MarketEvent)
    (gi : ℕ) {p : PairState} (hst : objGet st e.pairAddress = some p) :
    integrateNewData st e gi
      = objSet st e.pairAddress (integratePair p e (e.minuteKey / gi * gi)) := by
  unfold integrateNewData
  rw [hst]

lemma integrateNewData_eq_of_none (st : List (String × PairState)) (e : MarketEvent)
    (gi : ℕ) (hst : objGet st e.pairAddress = none) :
    integrateNewData st e gi
      = objSet st e.pairAddress
          (integratePair (initialPairState e (e.minuteKey / gi * gi)) e
            (e.minuteKey / gi * gi)) := by
  unfold integrateNewData
  rw [hst]

/-- C5: after integrating an accepted feed event (one with a positive price),
every group of every pair state still satisfies
`min_price ≤ first_price ≤ max_price`, `min_price ≤ last_price ≤ max_price`
and `total_volume = buy_volume + sell_volume`; a group that already existed
keeps its `first_price` unchanged; and a group created by this event has
`first_price = last_price` of the event — so `first_price` is written exactly
once, at group creation. -/
theorem aggregation_group_invariants (st : List (String × PairState))
    (e : MarketEvent) (gi : ℕ) (hp : 0 < e.last_price)
    (hinv : ∀ av ∈ st, ∀ kg ∈ av.2.groups, GroupInv kg.2) :
    (∀ av ∈ integrateNewData st e gi, ∀ kg ∈ av.2.groups, GroupInv kg.2) ∧
    (∀ (ps ps' : PairState) (k : ℕ) (g g' : Group),
      objGet st e.pairAddress = some ps →
      objGet (integrateNewData st e gi) e.pairAddress = some ps' →
      objGet ps.groups k = some g → objGet ps'.groups k = some g' →
      g'.first_price = g.first_price) ∧
    (∀ ps' : PairState,
      objGet (integrateNewData st e gi) e.pairAddress = some ps' →
      (∀ ps, objGet st e.pairAddress = some ps →
        objGet ps.groups (e.minuteKey / gi * gi) = none) →
      ∃ g', objGet ps'.groups (e.minuteKey / gi * gi) = some g' ∧
        g'.first_price = e.last_price) := by
  refine ⟨?_, ?_, ?_⟩
  · intro av hav kg hkg
    rcases hst : objGet st e.pairAddress with _ | p
    · rw [integrateNewData_eq_of_none st e gi hst] at hav
      rcases mem_objSet hav with rfl | hav2
      · exact integratePair_groups_inv (fun kg2 hkg2 => by simp [initialPairState] at hkg2) _ hkg
      · exact hinv _ hav2 _ hkg
    · rw [integrateNewData_eq_of_get st e gi hst] at hav
      rcases mem_objSet hav with rfl | hav2
      · exact integratePair_groups_inv (hinv _ (objGet_mem hst)) _ hkg
      · exact hinv _ hav2 _ hkg
  · intro ps ps' k g g' hst hst' hg hg'
    rw [integrateNewData_eq_of_get st e gi hst, objGet_objSet_self] at hst'
    cases hst'
    exact integratePair_first_price hg hg'
  · intro ps' hst' hnone
    rcases hst : objGet st e.pairAddress with _ | p
    · rw [integrateNewData_eq_of_none st e gi hst, objGet_objSet_self] at hst'
      cases hst'
      exact integratePair_creates rfl
    · rw [integrateNewData_eq_of_get st e gi hst, objGet_objSet_self] at hst'
      cases hst'
      exact integratePair_creates (hnone p hst)

/-- Witness for C5 at a concrete event integrated into the empty pair map. -/
theorem aggregation_group_invariants_witness :
    (0 : ℚ) < 2 ∧
    (∀ av ∈ integrateNewData [] ⟨"0xpair", 2, 3, 4, 10, 100⟩ 5,
      ∀ kg ∈ av.2.groups, GroupInv kg.2) :=
  ⟨by decide,
    (aggregation_group_invariants [] ⟨"0xpair", 2, 3, 4, 10, 100⟩ 5 (by decide)
      (fun av hav => nomatch hav)).1⟩


/-! ## Group retention / cleanup

`cleanupOldGroups` (standalone-agent.js lines 489-511): for each pair, sort
the numeric group keys ascending, delete all but the newest `maxGroups` of
them, and delete the whole pair state when its newest group key (`|| 0` when
there are no groups) is more than 30 minutes behind the current minute key and
the pair has no active trade. -/

/-- Lines 493-500: `groupKeys.sort((a,b) => a-b)` and removal of
`groupKeys.slice(0, length - maxGroups)`. -/
def trimGroups (gs : List (ℕ × Group)) (maxGroups : ℕ) : List (ℕ × Group) :=
  let groupKeys := (gs.map Prod.fst).mergeSort (fun a b => decide (a ≤ b))
  if maxGroups < groupKeys.length then
    let toRemove := groupKeys.take (groupKeys.length - maxGroups)
    gs.filter (fun kv => decide (kv.1 ∉ toRemove))
  else gs

/-- Lines 491-510 for a single pair: trim its groups, then decide staleness
(`nowMinuteKey - lastGroup > 30` with no active trade deletes the pair). -/
def cleanupPair (maxGroups nowMinuteKey : ℕ) (hasActiveTrade : Bool)
    (ps : PairState) : Option PairState :=
  let groupKeys := (ps.groups.map Prod.fst).mergeSort (fun a b => decide (a ≤ b))
  let lastGroup := groupKeys.getLast?.getD 0
  if lastGroup + 30 < nowMinuteKey ∧ hasActiveTrade = false then none
  else some { ps with groups := trimGroups ps.groups maxGroups }

/-- `cleanupOldGroups` (lines 489-511) over the whole pair map. -/
def cleanupOldGroups (st : List (String × PairState)) (maxGroups nowMinuteKey : ℕ)
    (hasActiveTrade : String → Bool) : List (String × PairState) :=
  st.filterMap (fun av =>
    (cleanupPair maxGroups nowMinuteKey (hasActiveTrade av.1) av.2).map
      (fun ps => (av.1, ps)))

/-- The newest (largest) group key of a pair, 0 when it has no groups. -/
def newestGroupKey (ps : PairState) : ℕ := (ps.groups.map Prod.fst).foldr max 0

lemma objGet_eq_none {α β : Type} [DecidableEq α] {l : List (α × β)} {k : α}
    (h : ∀ kv ∈ l, kv.1 ≠ k) : objGet l k = none := by
  induction l with
  | nil => rfl
  | cons hd t ih =>
    rcases hd with ⟨k0, v0⟩
    unfold objGet
    rw [if_neg (h (k0, v0) (List.mem_cons_self _ _))]
    exact ih (fun kv hkv => h kv (List.mem_cons_of_mem _ hkv))

lemma objGet_filterMap {f : String → PairState → Option PairState} :
    ∀ {st : List (String × PairState)}, (st.map Prod.fst).Nodup → ∀ a : String,
    objGet (st.filterMap (fun av => (f av.1 av.2).map (fun ps => (av.1, ps)))) a
      = (objGet st a).bind (fun ps => f a ps) := by
  intro st
  induction st with
  | nil => intro _ a; rfl
  | cons hd t ih =>
    intro hnd a
    rcases hd with ⟨k, v⟩
    simp only [List.map_cons, List.nodup_cons] at hnd
    obtain ⟨hk, hndt⟩ := hnd
    by_cases hak : k = a
    · subst hak
      have h3 : objGet ((k, v) :: t) k = some v := by
        unfold objGet; rw [if_pos rfl]
      rcases hf : f k v with _ | w
      · have h1 : List.filterMap (fun av => (f av.1 av.2).map (fun ps => (av.1, ps)))
            ((k, v) :: t) = List.filterMap _ t :=
          List.filterMap_cons_none (by show Option.map _ (f k v) = none; rw [hf]; rfl)
        have h2 : objGet (List.filterMap
            (fun av => (f av.1 av.2).map (fun ps => (av.1, ps))) t) k = none := by
          apply objGet_eq_none
          intro kv hkv
          rcases List.mem_filterMap.mp hkv with ⟨av, hav, havf⟩
          rcases hf2 : f av.1 av.2 with _ | w2
          · rw [hf2] at havf; exact nomatch havf
          · rw [hf2] at havf
            cases havf
            intro hkvk
            apply hk
            rw [← hkvk]
            show av.1 ∈ List.map Prod.fst t
            exact List.mem_map_of_mem Prod.fst hav
        rw [h1, h2, h3]
        simp [hf]
      · have h1 : List.filterMap (fun av => (f av.1 av.2).map (fun ps => (av.1, ps)))
            ((k, v) :: t) = (k, w) :: List.filterMap _ t :=
          List.filterMap_cons_some (by show Option.map _ (f k v) = some (k, w); rw [hf]; rfl)
        rw [h1, h3]
        show (if k = k then some w else _) = _
        rw [if_pos rfl]
        simp [hf]
    · have h3 : objGet ((k, v) :: t) a = objGet t a := by
        simp only [objGet]; rw [if_neg hak]
      rcases hf : f k v with _ | w
      · have h1 : List.filterMap (fun av => (f av.1 av.2).map (fun ps => (av.1, ps)))
            ((k, v) :: t) = List.filterMap _ t :=
          List.filterMap_cons_none (by show Option.map _ (f k v) = none; rw [hf]; rfl)
        rw [h1, h3, ih hndt a]
      · have h1 : List.filterMap (fun av => (f av.1 av.2).map (fun ps => (av.1, ps)))
            ((k, v) :: t) = (k, w) :: List.filterMap _ t :=
          List.filterMap_cons_some (by show Option.map _ (f k v) = some (k, w); rw [hf]; rfl)
        rw [h1]
        show (if k = a then some w else _) = _
        rw [if_neg hak, h3, ih hndt a]

lemma map_fst_filter (gs : List (ℕ × Group)) (p : ℕ → Bool) :
    (gs.filter (fun kv => p kv.1)).map Prod.fst = (gs.map Prod.fst).filter p := by
  induction gs with
  | nil => rfl
  | cons hd t ih =>
    rcases hd with ⟨k, v⟩
    simp only [List.filter_cons, List.map_cons]
    rcases hp : p k with _ | _
    · simpa [hp] using ih
    · simpa [hp] using ih

lemma le_foldr_max (l : List ℕ) : ∀ x ∈ l, x ≤ l.foldr max 0 := by
  induction l with
  | nil => intro x hx; exact nomatch hx
  | cons hd t ih =>
    intro x hx
    rcases List.mem_cons.mp hx with rfl | hx2
    · exact le_max_left _ _
    · exact le_trans (ih x hx2) (le_max_right _ _)

lemma foldr_max_mem (l : List ℕ) : l.foldr max 0 = 0 ∨ l.foldr max 0 ∈ l := by
  induction l with
  | nil => exact Or.inl rfl
  | cons hd t ih =>
    simp only [List.foldr_cons]
    rcases le_total (t.foldr max 0) hd with hle | hle
    · rw [max_eq_left hle]
      exact Or.inr (List.mem_cons_self _ _)
    · rw [max_eq_right hle]
      rcases ih with h0 | hmem
      · rw [h0]
        exact Or.inl rfl
      · exact Or.inr (List.mem_cons_of_mem _ hmem)

lemma le_getLast_of_sorted :
    ∀ (S : List ℕ), List.Pairwise (fun a b => decide (a ≤ b) = true) S →
      ∀ x ∈ S, x ≤ S.getLast?.getD 0 := by
  intro S
  induction S with
  | nil => intro _ x hx; exact nomatch hx
  | cons hd t ih =>
    intro hS x hx
    rcases List.pairwise_cons.mp hS with ⟨hhd, ht⟩
    rcases t with _ | ⟨t0, t1⟩
    · rcases List.mem_singleton.mp hx with rfl
      simp
    · have htail : (hd :: t0 :: t1).getLast?.getD 0 = (t0 :: t1).getLast?.getD 0 := by
        rw [List.getLast?_cons_cons]
      rw [htail]
      rcases List.mem_cons.mp hx with rfl | hx2
      · calc x ≤ t0 := of_decide_eq_true (hhd t0 (List.mem_cons_self _ _))
          _ ≤ (t0 :: t1).getLast?.getD 0 := ih ht t0 (List.mem_cons_self _ _)
      · exact ih ht x hx2


lemma decide_le_trans (a b c : ℕ) (h1 : decide (a ≤ b) = true) (h2 : decide (b ≤ c) = true) :
    decide (a ≤ c) = true := by
  simp only [decide_eq_true_eq] at *
  omega

lemma decide_le_total (a b : ℕ) : (decide (a ≤ b) || decide (b ≤ a)) = true := by
  simp only [Bool.or_eq_true, decide_eq_true_eq]
  exact Nat.le_total a b

lemma trimGroups_spec (gs : List (ℕ × Group)) (maxG : ℕ)
    (hnd : (gs.map Prod.fst).Nodup) :
    (trimGroups gs maxG).length = min gs.length maxG ∧
    (∀ k ∈ (trimGroups gs maxG).map Prod.fst, k ∈ gs.map Prod.fst) ∧
    (∀ k ∈ (trimGroups gs maxG).map Prod.fst, ∀ j ∈ gs.map Prod.fst,
      j ∉ (trimGroups gs maxG).map Prod.fst → j < k) := by
  have hperm := List.mergeSort_perm (gs.map Prod.fst) (fun a b => decide (a ≤ b))
  have hlenS : ((gs.map Prod.fst).mergeSort (fun a b => decide (a ≤ b))).length
      = gs.length := by
    rw [hperm.length_eq, List.length_map]
  by_cases hbig :
      maxG < ((gs.map Prod.fst).mergeSort (fun a b => decide (a ≤ b))).length
  case neg =>
    have htrim : trimGroups gs maxG = gs := by
      unfold trimGroups
      rw [if_neg hbig]
    rw [htrim]
    refine ⟨?_, fun k hk => hk, fun k _ j hj hjn => absurd hj hjn⟩
    rw [min_eq_left]
    omega
  case pos =>
    set le := fun a b : ℕ => decide (a ≤ b) with hle
    set S := (gs.map Prod.fst).mergeSort le with hS
    set R := S.take (S.length - maxG) with hR
    set K := S.drop (S.length - maxG) with hK
    have hsorted : List.Pairwise (fun a b => le a b = true) S :=
      List.sorted_mergeSort decide_le_trans decide_le_total (gs.map Prod.fst)
    have hndS : S.Nodup := (List.Perm.nodup_iff hperm).mpr hnd
    have hRK : R ++ K = S := List.take_append_drop _ S
    have hsplit := List.nodup_append.mp (hRK ▸ hndS)
    have htrim : trimGroups gs maxG = gs.filter (fun kv => decide (kv.1 ∉ R)) := by
      unfold trimGroups
      rw [if_pos hbig]
    have hmapfst : (trimGroups gs maxG).map Prod.fst
        = (gs.map Prod.fst).filter (fun k => decide (k ∉ R)) := by
      rw [htrim]
      exact map_fst_filter gs (fun k => decide (k ∉ R))
    have hfiltS : S.filter (fun k => decide (k ∉ R)) = K := by
      conv_lhs => rw [← hRK]
      rw [List.filter_append]
      have h1 : R.filter (fun k => decide (k ∉ R)) = [] := by
        rw [List.filter_eq_nil_iff]
        intro a ha
        simp [ha]
      have h2 : K.filter (fun k => decide (k ∉ R)) = K := by
        rw [List.filter_eq_self]
        intro a ha
        simp only [decide_eq_true_eq]
        exact fun haR => hsplit.2.2 haR ha
      rw [h1, h2, List.nil_append]
    have hpermfilt : ((gs.map Prod.fst).filter (fun k => decide (k ∉ R))).Perm K := by
      rw [← hfiltS]
      exact List.Perm.filter _ hperm.symm
    refine ⟨?_, ?_, ?_⟩
    · have : (trimGroups gs maxG).length = ((trimGroups gs maxG).map Prod.fst).length := by
        rw [List.length_map]
      rw [this, hmapfst, hpermfilt.length_eq, hK, List.length_drop]
      rw [hlenS] at hbig ⊢
      omega
    · intro k hk
      rw [hmapfst] at hk
      exact (List.mem_filter.mp hk).1
    · intro k hk j hj hjn
      rw [hmapfst] at hk hjn
      have hkK : k ∈ K := hpermfilt.mem_iff.mp hk
      have hjR : j ∈ R := by
        by_contra hjR
        exact hjn (List.mem_filter.mpr ⟨hj, by simpa using hjR⟩)
      have hjk : le j k = true :=
        (List.pairwise_append.mp (hRK ▸ hsorted)).2.2 j hjR k hkK
      have hne : j ≠ k := fun heq => hsplit.2.2 hjR (heq ▸ hkK)
      have : j ≤ k := by simpa [hle] using hjk
      omega

lemma sorted_getLast_eq_newest (ps : PairState) :
    (((ps.groups.map Prod.fst).mergeSort (fun a b => decide (a ≤ b))).getLast?.getD 0)
      = newestGroupKey ps := by
  have hperm := List.mergeSort_perm (ps.groups.map Prod.fst) (fun a b => decide (a ≤ b))
  have hsorted : List.Pairwise (fun a b => decide (a ≤ b) = true)
      ((ps.groups.map Prod.fst).mergeSort (fun a b => decide (a ≤ b))) :=
    List.sorted_mergeSort decide_le_trans decide_le_total _
  set S := (ps.groups.map Prod.fst).mergeSort (fun a b => decide (a ≤ b)) with hS
  by_cases hne : S = []
  · have hkeys : ps.groups.map Prod.fst = [] := by
      have h2 := hperm
      rw [hne] at h2
      exact List.Perm.eq_nil h2.symm
    rw [hne]
    unfold newestGroupKey
    rw [hkeys]
    rfl
  · have hlast : S.getLast?.getD 0 = S.getLast hne := by
      rw [List.getLast?_eq_getLast S hne]
      rfl
    have hLmem : S.getLast hne ∈ S := List.getLast_mem hne
    have hLM : S.getLast hne ≤ newestGroupKey ps :=
      le_foldr_max _ _ (hperm.mem_iff.mp hLmem)
    have hML : newestGroupKey ps ≤ S.getLast hne := by
      rcases foldr_max_mem (ps.groups.map Prod.fst) with h0 | hmem
      · unfold newestGroupKey
        rw [h0]
        exact Nat.zero_le _
      · have : newestGroupKey ps ∈ S := hperm.mem_iff.mpr hmem
        have := le_getLast_of_sorted S hsorted _ this
        rwa [hlast] at this
    rw [hlast]
    omega

lemma cleanupPair_eq_none_iff (maxG now : ℕ) (act : Bool) (ps : PairState) :
    (cleanupPair maxG now act ps = none ↔
      (newestGroupKey ps + 30 < now ∧ act = false)) := by
  unfold cleanupPair
  dsimp only
  rw [sorted_getLast_eq_newest ps]
  split
  · next hc => simp [hc]
  · next hc => simp [hc]

lemma cleanupPair_groups {maxG now : ℕ} {act : Bool} {ps ps' : PairState}
    (h : cleanupPair maxG now act ps = some ps') :
    ps'.groups = trimGroups ps.groups maxG := by
  unfold cleanupPair at h
  dsimp only at h
  split at h
  · exact nomatch h
  · cases h
    rfl

lemma objGet_cleanupOldGroups (st : List (String × PairState)) (maxG now : ℕ)
    (act : String → Bool) (hnd : (st.map Prod.fst).Nodup) (a : String) :
    objGet (cleanupOldGroups st maxG now act) a
      = (objGet st a).bind (fun ps => cleanupPair maxG now (act a) ps) := by
  unfold cleanupOldGroups
  exact @objGet_filterMap (fun b ps => cleanupPair maxG now (act b) ps) st hnd a

/-- C8: after a cleanup pass, every remaining pair holds at most `max_groups`
groups, and those groups are exactly the newest ones by numeric group key
(they all come from the pair's previous groups, exactly
`min(previous count, max_groups)` of them survive, and every removed key is
older than every kept key); and a pair's state is deleted if and only if its
newest group key is more than 30 minutes behind the current minute key and
the pair has no active trade. -/
theorem cleanup_retention (st : List (String × PairState)) (maxGroups nowMinuteKey : ℕ)
    (hasActiveTrade : String → Bool)
    (hnd : (st.map Prod.fst).Nodup)
    (hgs : ∀ av ∈ st, (av.2.groups.map Prod.fst).Nodup) :
    (∀ (a : String) (ps' : PairState),
      objGet (cleanupOldGroups st maxGroups nowMinuteKey hasActiveTrade) a = some ps' →
      ps'.groups.length ≤ maxGroups) ∧
    (∀ (a : String) (ps ps' : PairState), objGet st a = some ps →
      objGet (cleanupOldGroups st maxGroups nowMinuteKey hasActiveTrade) a = some ps' →
      ps'.groups.length = min ps.groups.length maxGroups ∧
      (∀ k ∈ ps'.groups.map Prod.fst, k ∈ ps.groups.map Prod.fst) ∧
      (∀ k ∈ ps'.groups.map Prod.fst, ∀ j ∈ ps.groups.map Prod.fst,
        j ∉ ps'.groups.map Prod.fst → j < k)) ∧
    (∀ (a : String) (ps : PairState), objGet st a = some ps →
      (objGet (cleanupOldGroups st maxGroups nowMinuteKey hasActiveTrade) a = none ↔
        (newestGroupKey ps + 30 < nowMinuteKey ∧ hasActiveTrade a = false))) := by
  have hmain : ∀ (a : String) (ps ps' : PairState), objGet st a = some ps →
      objGet (cleanupOldGroups st maxGroups nowMinuteKey hasActiveTrade) a = some ps' →
      ps'.groups = trimGroups ps.groups maxGroups := by
    intro a ps ps' hst hpost
    rw [objGet_cleanupOldGroups st maxGroups nowMinuteKey hasActiveTrade hnd a,
      hst] at hpost
    exact cleanupPair_groups hpost
  refine ⟨?_, ?_, ?_⟩
  · intro a ps' hpost
    rcases hst : objGet st a with _ | ps
    · rw [objGet_cleanupOldGroups st maxGroups nowMinuteKey hasActiveTrade hnd a,
        hst] at hpost
      exact nomatch hpost
    · have hg := (trimGroups_spec ps.groups maxGroups
        (hgs _ (objGet_mem hst))).1
      rw [hmain a ps ps' hst hpost, hg]
      omega
  · intro a ps ps' hst hpost
    have hspec := trimGroups_spec ps.groups maxGroups (hgs _ (objGet_mem hst))
    rw [hmain a ps ps' hst hpost]
    exact hspec
  · intro a ps hst
    rw [objGet_cleanupOldGroups st maxGroups nowMinuteKey hasActiveTrade hnd a, hst]
    show cleanupPair maxGroups nowMinuteKey (hasActiveTrade a) ps = none ↔ _
    exact cleanupPair_eq_none_iff maxGroups nowMinuteKey (hasActiveTrade a) ps

/-- Witness for C8 at a one-pair, two-group state. -/
theorem cleanup_retention_witness :
    (([("0xa", (⟨[(100, newGroup 2), (105, newGroup 3)], 3, 4, 105⟩ : PairState))].map
        Prod.fst).Nodup) ∧
    (∀ (a : String) (ps' : PairState),
      objGet (cleanupOldGroups [("0xa", ⟨[(100, newGroup 2), (105, newGroup 3)], 3, 4, 105⟩)]
        1 200 (fun _ => true)) a = some ps' →
      ps'.groups.length ≤ 1) :=
  ⟨by decide,
    (cleanup_retention [("0xa", ⟨[(100, newGroup 2), (105, newGroup 3)], 3, 4, 105⟩)]
      1 200 (fun _ => true) (by decide) (by decide)).1⟩

end BuffFi
